import Mathlib

/-!
# Verification of the skill resolution and retrieval core of `mcp-skills-as-context`

Shallow embedding of the core of `src/src/stdio.mjs` (the stdio entry point of the
server; `src/index.ts` duplicates the same orchestration logic, with a reduced
resolver that only has the exact-match tier).  Embedded components:

* the GitHub-token round-robin (`getGitHubHeaders`),
* the folder resolver (`findSkillFolder`, tiered matching),
* the directory content fetcher (`fetchFolderContents`),
* the recursive collector (`collectFiles`),
* the per-skill orchestrator (`fetchSkillDetails`),
* the `get-skill-details` batch handler (`getSkillDetailsTool`).

Modeling conventions:

* The network is an explicit environment `Env` mapping requests to responses;
  a thrown JavaScript exception is modeled as `Except.error` carrying the
  exception message.  A result that depends only on the identifier and not on
  the environment corresponds to code that issues no network request.
* JavaScript strings are modeled as Lean `String`s; the string operations used
  by the source (`split`, `endsWith`, `includes`, `substring` up to the last
  slash, `toLowerCase` on ASCII) are given structural-recursive models on
  `List Char` so that every concrete instance evaluates by `decide`.
  All inputs of interest are ASCII, where the models agree with JavaScript
  (UTF-16 length vs. code-point length, non-ASCII lowercasing aside).
* JavaScript numbers in the fuzzy scorer are exact nonnegative rationals in
  the source (small integer numerators and denominators), modeled as explicit
  numerator/denominator pairs (`Score`) compared by cross-multiplication;
  this agrees with IEEE double arithmetic at every comparison the source
  performs on such values except in the degenerate case where both token sets
  are empty (division `0/0`, JavaScript `NaN`), which is excluded where it
  matters by an explicit hypothesis.
* `collectFiles` recurses through directories reported by the environment, so
  the embedding carries an explicit recursion-depth fuel; every statement
  either holds for all fuel values or supplies enough fuel for its input.
-/

/-! ## Character-list models of the JavaScript string operations -/

/-- `chBegins t l` ⇔ `t` is a leading segment of `l` (JS `String.startsWith`). -/
def chBegins : List Char → List Char → Bool
  | [], _ => true
  | _ :: _, [] => false
  | a :: as, b :: bs => a == b && chBegins as bs

/-- `chEnds t l` ⇔ `t` is a trailing segment of `l` (JS `String.endsWith`). -/
def chEnds (t l : List Char) : Bool :=
  decide (t.length ≤ l.length) && decide (l.drop (l.length - t.length) = t)

/-- `chHasSub t l` ⇔ `t` occurs contiguously inside `l` (JS `String.includes`). -/
def chHasSub (t : List Char) : List Char → Bool
  | [] => chBegins t []
  | c :: ls => chBegins t (c :: ls) || chHasSub t ls

/-- `chSplit sep cs` — JS `String.split` with a single-character separator:
`chSplit '/' "a//b" = ["a", "", "b"]`, `chSplit '/' "" = [""]`. -/
def chSplit (sep : Char) : List Char → List (List Char)
  | [] => [[]]
  | c :: cs =>
      match chSplit sep cs with
      | [] => [[c]]
      | r :: rs => if c == sep then [] :: r :: rs else (c :: r) :: rs

/-- Join with a single-character separator (inverse of `chSplit`). -/
def chJoin (sep : Char) : List (List Char) → List Char
  | [] => []
  | [x] => x
  | x :: xs => x ++ sep :: chJoin sep xs

/-- JS `a.endsWith(b)` on strings. -/
def strEnds (a b : String) : Bool := chEnds b.data a.data

/-- JS `a.includes(b)` on strings. -/
def strIncludes (a b : String) : Bool := chHasSub b.data a.data

/-- JS `s.split(sep)` for a single-character separator. -/
def strSplit (sep : Char) (s : String) : List String :=
  (chSplit sep s.data).map String.mk

/-- JS `parts.join("/")`. -/
def joinSlash : List String → String
  | [] => ""
  | [s] => s
  | s :: ss => s ++ "/" ++ joinSlash ss

/-- JS `folderPath.split("/").pop() || ""` — the final path segment. -/
def lastSegment (p : String) : String :=
  (strSplit '/' p).getLastD ""

/-- JS `path.substring(0, path.lastIndexOf("/"))`, `""` when there is no
slash — the parent directory of a tree path. -/
def parentDir (p : String) : String :=
  let parts := chSplit '/' p.data
  if parts.length ≤ 1 then "" else String.mk (chJoin '/' parts.dropLast)

/-- ASCII lowercasing, as JS `toLowerCase` / the `i` regex flag act on the
ASCII inputs of interest. -/
def chLower (c : Char) : Char := Char.toLower c

/-! ## Data model -/

/-- One entry of the recursive Git tree listing (`{path, type}` with
`type ∈ {"tree", "blob"}`). -/
structure TreeEntry where
  path : String
  type : String
deriving DecidableEq

/-- Resolver outcome: `{folderPath, error}` as built by `findSkillFolder`. -/
structure FolderMatch where
  folderPath : Option String
  error : Option String
deriving DecidableEq

/-- One entry of a GitHub contents listing
(`{type: "file" | "dir", path, name, download_url}`); an absent or empty
`download_url` is modeled as `none` / `some ""` (both are JS-falsy). -/
structure Item where
  type : String
  path : String
  name : String
  download_url : Option String
deriving DecidableEq

/-- `{path, name, content}` for one successfully downloaded file. -/
structure FileRecord where
  path : String
  name : String
  content : String
deriving DecidableEq

/-- The externally visible per-skill result `{id, files, error}`. -/
structure SkillDetailResult where
  id : String
  files : List FileRecord
  error : Option String
deriving DecidableEq

deriving instance DecidableEq for Except

/-- Response of the recursive-tree endpoint: HTTP 403 (with the optional
`message` field of the JSON body), another non-success status, or a listing
(the `tree ?? []` field of the body). -/
inductive TreeResp where
  | http403 (msg : Option String)
  | failed (status : Nat)
  | ok (entries : List TreeEntry)

/-- Response of the contents endpoint: HTTP 403 (with the optional `message`
body field), a non-success status or a non-array body (both of which the
source collapses to `null`), or an item listing. -/
inductive ContentsResp where
  | http403 (msg : Option String)
  | failed
  | ok (items : List Item)

/-- The network, as a deterministic oracle: tree listing per `source`
(`owner/repo`), contents listing per `source` and path, raw download per URL
(`none` models every failure — the file downloader absorbs them all). -/
structure Env where
  tree : String → TreeResp
  contents : String → String → ContentsResp
  download : String → Option String

/-! ## Credential rotator (`getGitHubHeaders`, stdio.mjs lines 40–50) -/

/-- The module-level mutable state: the configured token pool and the
monotonically increasing cursor. -/
structure RotatorState where
  githubTokens : List String
  tokenIndex : Nat
deriving DecidableEq

/-- `getGitHubHeaders()`: returns the header list and the successor state.
With a non-empty pool it embeds `Bearer` + the token at `tokenIndex % length`
and increments the cursor; with an empty pool it returns only the `Accept`
header and leaves the state unchanged. -/
def getGitHubHeaders (s : RotatorState) : List (String × String) × RotatorState :=
  let base := [("Accept", "application/vnd.github.v3+json")]
  if s.githubTokens.length > 0 then
    (base ++ [("Authorization",
        "Bearer " ++ s.githubTokens.getD (s.tokenIndex % s.githubTokens.length) "")],
     { s with tokenIndex := s.tokenIndex + 1 })
  else
    (base, s)

/-- State of the rotator after `n` calls starting from `s`. -/
def callsFrom (s : RotatorState) : Nat → RotatorState
  | 0 => s
  | n + 1 => (getGitHubHeaders (callsFrom s n)).2

/-! ## Folder resolver (`findSkillFolder`, stdio.mjs lines 56–127) -/

/-- Tier 1 candidates: paths of `tree`-type entries whose path equals
`skillId` or ends with `"/" + skillId`. -/
def exactCandidates (tree : List TreeEntry) (skillId : String) : List String :=
  (tree.filter (fun e =>
      e.type == "tree" && (e.path == skillId || strEnds e.path ("/" ++ skillId)))).map
    (fun e => e.path)

/-- `candidates.reduce((a, b) => (a.length <= b.length ? a : b))` — the
shortest candidate, keeping the earliest on equal lengths. -/
def shortestPath (a : String) (l : List String) : String :=
  l.foldl (fun x b => if x.length ≤ b.length then x else b) a

/-- The manifest test `/SKILL\.md$/i.test(path)`: the path ends with
`skill.md` compared case-insensitively. -/
def isSkillMd (p : String) : Bool :=
  chEnds "skill.md".data (p.data.map chLower)

/-- Tier 2: `blob` entries recognized as skill manifests. -/
def manifestEntries (tree : List TreeEntry) : List TreeEntry :=
  tree.filter (fun e => e.type == "blob" && isSkillMd e.path)

/-- An exact nonnegative fraction `num / den`.  The fuzzy scores of the source
are such fractions (IEEE doubles represent every value the source compares,
and every comparison it performs agrees with exact rational comparison);
`den = 0` encodes the degenerate `0/0 = NaN` case, which is excluded by
hypothesis wherever a claim depends on it. -/
structure Score where
  num : Nat
  den : Nat
deriving DecidableEq

/-- Rational strict order by cross-multiplication (`a < b`). -/
def Score.lt (a b : Score) : Bool := a.num * b.den < b.num * a.den

/-- Rational order by cross-multiplication (`a ≤ b`). -/
def Score.le (a b : Score) : Bool := a.num * b.den ≤ b.num * a.den

/-- `best.score >= 0.30`. -/
def Score.atLeast30 (s : Score) : Bool := 3 * s.den ≤ 10 * s.num

/-- `Math.round(score * 100)` for a nonnegative fraction with `den > 0`:
`⌊100·num/den + 1/2⌋` as Nat division. -/
def Score.pct (s : Score) : Nat := (200 * s.num + s.den) / (2 * s.den)

/-- Token set of a string: split on `-`, drop empty tokens (`filter(Boolean)`),
dedupe (JS `Set`, first occurrences kept). -/
def tokensOf (s : String) : List String :=
  (((chSplit '-' s.data).map String.mk).filter (fun t => t ≠ "")).eraseDups

/-- One fuzzy candidate: its full path, its final segment, and its score. -/
structure Cand where
  folderPath : String
  folderName : String
  score : Score
deriving DecidableEq

/-- Build the fuzzy candidate for one parent folder: base score
`|folderTokens ∩ skillIdTokens| / max(|folderTokens|, |skillIdTokens|)`,
plus `0.5` capped at `1.0` when either string contains the other
(`score = Math.min(score + 0.5, 1.0)`). -/
def mkCand (skillId folderPath : String) : Cand :=
  let folderName := lastSegment folderPath
  let folderTokens := tokensOf folderName
  let skillIdTokens := tokensOf skillId
  let common := folderTokens.filter (fun t => skillIdTokens.contains t)
  let base : Score := ⟨common.length, max folderTokens.length skillIdTokens.length⟩
  if strIncludes skillId folderName || strIncludes folderName skillId then
    let plus : Score := ⟨2 * base.num + base.den, 2 * base.den⟩
    ⟨folderPath, folderName, if plus.den ≤ plus.num then ⟨1, 1⟩ else plus⟩
  else
    ⟨folderPath, folderName, base⟩

/-- `candidates.sort((a, b) => b.score - a.score)[0]` — the sort is stable, so
this is the earliest candidate of maximal score: fold that replaces the
accumulator only on a strictly greater score. -/
def pickBest (a : Cand) (l : List Cand) : Cand :=
  l.foldl (fun b c => if Score.lt b.score c.score then c else b) a

/-- What the fuzzy tier returns for its best-scoring candidate: the
candidate's path when its score reaches `0.30`, otherwise the diagnostic
error naming the candidate and its rounded percentage. -/
def fuzzyOutcome (best : Cand) : FolderMatch :=
  if best.score.atLeast30 then ⟨some best.folderPath, none⟩
  else
    ⟨none, some ("No matching skill folder found (best match: " ++ best.folderName ++
      " at " ++ toString best.score.pct ++ "%)")⟩

/-- Tier 4 for the nonempty candidate list `f1 :: fs` of parent folders:
score every candidate, take the stable-sort maximum, and produce its
outcome. -/
def fuzzyPick (skillId f1 : String) (fs : List String) : FolderMatch :=
  fuzzyOutcome (pickBest (mkCand skillId f1) (fs.map (mkCand skillId)))

/-- The pure part of `findSkillFolder` (stdio.mjs lines 71–126), applied to a
successfully fetched tree listing: exact directory match (shortest path wins),
then manifest discovery, the single-manifest shortcut (`length === 1`, counted
over manifest blobs, not over distinct parents), and fuzzy disambiguation. -/
def findSkillFolderPure (tree : List TreeEntry) (skillId : String) : FolderMatch :=
  match exactCandidates tree skillId with
  | e :: es => ⟨some (shortestPath e es), none⟩
  | [] =>
    match manifestEntries tree with
    | [] => ⟨none, some "No SKILL.md files found in repository"⟩
    | [e] => ⟨some (parentDir e.path), none⟩
    | e1 :: e2 :: rest =>
        fuzzyPick skillId (parentDir e1.path)
          ((e2 :: rest).map (fun e => parentDir e.path))

/-- `findSkillFolder(source, skillId)`: fetch the recursive tree (403 → error
from the body message, other failures → status error), then resolve. -/
def findSkillFolder (env : Env) (source skillId : String) : FolderMatch :=
  match env.tree source with
  | TreeResp.http403 msg => ⟨none, some (msg.getD "GitHub rate limit exceeded")⟩
  | TreeResp.failed status => ⟨none, some ("GitHub Trees API returned " ++ toString status)⟩
  | TreeResp.ok entries => findSkillFolderPure entries skillId

/-! ## Directory content fetcher, file downloader, recursive collector -/

/-- `fetchFolderContents(source, path)`: throws (`Except.error`) on HTTP 403
with the body message, returns `null` (`none`) on other failures, otherwise
the item listing. -/
def fetchFolderContents (env : Env) (source path : String) :
    Except String (Option (List Item)) :=
  match env.contents source path with
  | ContentsResp.http403 msg => Except.error (msg.getD "GitHub rate limit exceeded")
  | ContentsResp.failed => Except.ok none
  | ContentsResp.ok items => Except.ok (some items)

/-- The per-file step of `collectFiles`: skip entries without a (truthy)
`download_url`; `fetchFileContent` absorbs every failure into `null`, and a
`null` content is skipped as well. -/
def fileAttempt (env : Env) (entry : Item) : Option FileRecord :=
  match entry.download_url with
  | none => none
  | some u =>
      if u = "" then none
      else
        match env.download u with
        | none => none
        | some content => some ⟨entry.path, entry.name, content⟩

/-- The parallel per-file phase of `collectFiles`: map every `file` entry
through the download attempt (`Promise.all` keeps the entry order) and keep
the non-`null` results. -/
def codeFileRecords (env : Env) (items : List Item) : List FileRecord :=
  ((items.filter (fun f => f.type == "file")).map (fileAttempt env)).filterMap id

/-- `collectFiles(source, items)` with explicit recursion fuel: download all
`file` entries (in order, dropping failures silently), then walk each `dir`
entry — a 403 from `fetchFolderContents` propagates as an exception, a `null`
listing is skipped, and subtree results are appended in order. -/
def collectFiles (env : Env) (source : String) : Nat → List Item → Except String (List FileRecord)
  | 0, _ => Except.error "Maximum call stack size exceeded"
  | fuel + 1, items =>
    ((items.filter (fun f => f.type == "dir")).foldl
      (fun acc d =>
        match acc with
        | Except.error e => Except.error e
        | Except.ok racc =>
          if d.path = "" then Except.ok racc
          else
            match fetchFolderContents env source d.path with
            | Except.error e => Except.error e
            | Except.ok none => Except.ok racc
            | Except.ok (some sub) =>
                match collectFiles env source fuel sub with
                | Except.error e => Except.error e
                | Except.ok subFiles => Except.ok (racc ++ subFiles))
      (Except.ok [])).map
      (fun rest => codeFileRecords env items ++ rest)

/-- The subdirectory walk of `collectFiles`, factored out for reasoning: the
`for (const dir of dirEntries)` loop, with `fuel` the depth budget passed to
the recursive `collectFiles` calls. -/
def walkDirs (env : Env) (source : String) (fuel : Nat) (dirs : List Item) :
    Except String (List FileRecord) :=
  dirs.foldl
    (fun acc d =>
      match acc with
      | Except.error e => Except.error e
      | Except.ok racc =>
        if d.path = "" then Except.ok racc
        else
          match fetchFolderContents env source d.path with
          | Except.error e => Except.error e
          | Except.ok none => Except.ok racc
          | Except.ok (some sub) =>
              match collectFiles env source fuel sub with
              | Except.error e => Except.error e
              | Except.ok subFiles => Except.ok (racc ++ subFiles))
    (Except.ok [])

/-! ## Orchestrator and batch handler -/

/-- `fetchSkillDetails(skillId)` (stdio.mjs lines 179–203).  The outcome is
`Except.error msg` exactly when the JavaScript function rejects (throws), and
`Except.ok result` when it returns a `SkillDetailResult`.  Note that the
initial `fetchFolderContents` call on the resolved folder sits *outside* the
`try` block of the source; only `collectFiles` is wrapped. -/
def fetchSkillDetails (env : Env) (fuel : Nat) (skillId : String) :
    Except String SkillDetailResult :=
  let parts := strSplit '/' skillId
  if parts.length < 3 then
    Except.ok ⟨skillId, [],
      some ("Invalid skill ID format. Expected \"owner/repo/skillId\", got \"" ++
        skillId ++ "\"")⟩
  else
    let source := parts.getD 0 "" ++ "/" ++ parts.getD 1 ""
    let skillName := joinSlash (parts.drop 2)
    match findSkillFolder env source skillName with
    | ⟨_, some findError⟩ => Except.ok ⟨skillId, [], some findError⟩
    | ⟨none, none⟩ => Except.ok ⟨skillId, [], some "Skill folder not found"⟩
    | ⟨some folderPath, none⟩ =>
      match fetchFolderContents env source folderPath with
      | Except.error e => Except.error e
      | Except.ok none =>
          Except.ok ⟨skillId, [], some "Could not fetch folder contents from GitHub"⟩
      | Except.ok (some folderItems) =>
        match collectFiles env source fuel folderItems with
        | Except.error e =>
            Except.ok ⟨skillId, [], some e⟩
        | Except.ok files => Except.ok ⟨skillId, files, none⟩

/-- Outcome of the `get-skill-details` tool handler: a structured result list,
or the `isError` text produced by the handler's catch-all. -/
inductive ToolOutcome where
  | ok (skills : List SkillDetailResult)
  | err (msg : String)
deriving DecidableEq

/-- The `get-skill-details` handler: `Promise.all` over the identifiers (a
rejection of any element rejects the whole batch, modeled as the leftmost
error), converted by the surrounding `try`/`catch` into an `isError` text. -/
def getSkillDetailsTool (env : Env) (fuel : Nat) (ids : List String) : ToolOutcome :=
  match ids.mapM (fetchSkillDetails env fuel) with
  | Except.ok results => ToolOutcome.ok results
  | Except.error e => ToolOutcome.err ("Error: " ++ e)

/-! ## Concrete test environments and repository trees -/

/-- An environment where every request fails generically (no 403s). -/
def envEmpty : Env :=
  { tree := fun _ => TreeResp.failed 500
    contents := fun _ _ => ContentsResp.failed
    download := fun _ => none }

/-- A repository whose tree resolves skill `"s"` exactly, but whose contents
endpoint is rate-limited (HTTP 403) — already on the initial listing of the
resolved folder. -/
def envRateLimited : Env :=
  { tree := fun _ => TreeResp.ok [{ path := "s", type := "tree" }]
    contents := fun _ _ => ContentsResp.http403 none
    download := fun _ => none }

/-- A repository whose tree resolves skill `"s"` exactly and whose resolved
folder lists one subdirectory; the contents request for that subdirectory
(i.e. a request made *during recursive collection*) is rate-limited. -/
def envDeepRateLimited : Env :=
  { tree := fun _ => TreeResp.ok [{ path := "s", type := "tree" }]
    contents := fun _ p =>
      if p = "s" then
        ContentsResp.ok [{ type := "dir", path := "s/sub", name := "sub", download_url := none }]
      else ContentsResp.http403 none
    download := fun _ => none }

/-- The directory listing of the spec's collector example: one file entry with
no `download_url` and two downloadable entries. -/
def itemsMixed : List Item :=
  [{ type := "file", path := "a.md", name := "a.md", download_url := none },
   { type := "file", path := "b.md", name := "b.md", download_url := some "u1" },
   { type := "file", path := "c.md", name := "c.md", download_url := some "u2" }]

/-- Downloads for `itemsMixed`: `u1` and `u2` succeed, everything else fails. -/
def envMixed : Env :=
  { tree := fun _ => TreeResp.failed 500
    contents := fun _ _ => ContentsResp.failed
    download := fun u => if u = "u1" then some "one" else if u = "u2" then some "two" else none }

/-- A healthy two-skill repository `o/r` (skills `s` and `s2`), used to check
batch isolation around a malformed identifier. -/
def envTwoSkills : Env :=
  { tree := fun _ => TreeResp.ok [{ path := "s", type := "tree" }, { path := "s2", type := "tree" }]
    contents := fun _ p =>
      if p = "s" then
        ContentsResp.ok
          [{ type := "file", path := "s/SKILL.md", name := "SKILL.md", download_url := some "u1" }]
      else if p = "s2" then
        ContentsResp.ok
          [{ type := "file", path := "s2/SKILL.md", name := "SKILL.md", download_url := some "u2" }]
      else ContentsResp.failed
    download := fun u => if u = "u1" then some "content one" else if u = "u2" then some "content two" else none }

/-- Tree for the exact-match witness: the skill name occurs as a directory
both nested and at top level (plus an unrelated manifest). -/
def treeExact : List TreeEntry :=
  [{ path := "a/b/code-review", type := "tree" },
   { path := "code-review", type := "tree" },
   { path := "x/SKILL.md", type := "blob" }]

/-- Tree with two skill manifests in differently-named folders, for the fuzzy
tier witness. -/
def treeTwoManifests : List TreeEntry :=
  [{ path := "alpha-beta/SKILL.md", type := "blob" },
   { path := "gamma-delta/SKILL.md", type := "blob" }]

/-- Tree with a single skill manifest in a folder unrelated to any skill
identifier, for the single-manifest shortcut witness. -/
def treeOneManifest : List TreeEntry :=
  [{ path := "foo/SKILL.md", type := "blob" }]

/-- Tree in which two manifest blobs (differing only in filename case) share
the same parent directory `x`. -/
def treeSharedParent : List TreeEntry :=
  [{ path := "x/SKILL.md", type := "blob" },
   { path := "x/skill.md", type := "blob" }]

/-! ## Helper lemmas -/

theorem filterMap_id_map {α β : Type} (g : α → Option β) (l : List α) :
    (l.map g).filterMap id = l.filterMap g := by
  induction l with
  | nil => rfl
  | cons a l ih => cases h : g a <;> simp [List.map_cons, List.filterMap_cons, h, ih]

theorem codeFileRecords_eq (env : Env) (items : List Item) :
    codeFileRecords env items =
      (items.filter (fun f => f.type == "file")).filterMap (fileAttempt env) := by
  unfold codeFileRecords
  exact filterMap_id_map _ _

theorem collectFiles_succ (env : Env) (source : String) (fuel : Nat) (items : List Item) :
    collectFiles env source (fuel + 1) items =
      (walkDirs env source fuel (items.filter (fun f => f.type == "dir"))).map
        (fun rest => codeFileRecords env items ++ rest) := rfl

theorem chEnds_iff (t l : List Char) : chEnds t l = true ↔ ∃ p, l = p ++ t := by
  unfold chEnds
  rw [Bool.and_eq_true, decide_eq_true_eq, decide_eq_true_eq]
  constructor
  · rintro ⟨hlen, hdrop⟩
    refine ⟨l.take (l.length - t.length), ?_⟩
    conv_lhs => rw [← List.take_append_drop (l.length - t.length) l]
    rw [hdrop]
  · rintro ⟨p, rfl⟩
    have hlen : (p ++ t).length - t.length = p.length := by
      simp [List.length_append]
    refine ⟨by simp [List.length_append], ?_⟩
    rw [hlen, List.drop_left]

theorem chEnds_map_iff (f : Char → Char) (t l : List Char) :
    chEnds t (l.map f) = true ↔ ∃ pre suf : List Char, l = pre ++ suf ∧ suf.map f = t := by
  rw [chEnds_iff]
  constructor
  · rintro ⟨q, hq⟩
    have hlens : l.length = q.length + t.length := by
      have h := congrArg List.length hq
      simpa [List.length_append] using h
    refine ⟨l.take (l.length - t.length), l.drop (l.length - t.length),
      (List.take_append_drop _ l).symm, ?_⟩
    have hk : l.length - t.length = q.length := by omega
    calc (l.drop (l.length - t.length)).map f
        = (l.map f).drop (l.length - t.length) := by rw [List.map_drop]
      _ = (q ++ t).drop q.length := by rw [hq, hk]
      _ = t := List.drop_left _ _
  · rintro ⟨pre, suf, rfl, hsuf⟩
    exact ⟨pre.map f, by rw [List.map_append, hsuf]⟩

theorem shortestPath_spec (a : String) (l : List String) :
    shortestPath a l ∈ a :: l ∧
    (∀ q ∈ a :: l, (shortestPath a l).length ≤ q.length) ∧
    ((a :: l).filter (fun q => q.length == (shortestPath a l).length)).head? =
      some (shortestPath a l) := by
  induction l generalizing a with
  | nil =>
    refine ⟨by simp [shortestPath], ?_, ?_⟩
    · intro q hq
      have hqa : q = a := by simpa using hq
      simp [hqa, shortestPath]
    · simp [shortestPath, List.filter]
  | cons b l ih =>
    by_cases hab : a.length ≤ b.length
    · have hstep : shortestPath a (b :: l) = shortestPath a l := by
        simp [shortestPath, List.foldl_cons, if_pos hab]
      obtain ⟨hmem, hmin, hfirst⟩ := ih a
      rw [hstep]
      refine ⟨?_, ?_, ?_⟩
      · rcases List.mem_cons.mp hmem with h | h
        · rw [h]; exact List.mem_cons_self _ _
        · exact List.mem_cons_of_mem _ (List.mem_cons_of_mem _ h)
      · intro q hq
        rcases List.mem_cons.mp hq with h | h
        · rw [h]; exact hmin a (List.mem_cons_self _ _)
        · rcases List.mem_cons.mp h with h' | h'
          · rw [h']; exact Nat.le_trans (hmin a (List.mem_cons_self _ _)) hab
          · exact hmin q (List.mem_cons_of_mem _ h')
      · by_cases ha : a.length = (shortestPath a l).length
        · have hpa : (a.length == (shortestPath a l).length) = true := beq_iff_eq.mpr ha
          rw [List.filter_cons, if_pos hpa] at hfirst ⊢
          simpa using hfirst
        · have hpa : (a.length == (shortestPath a l).length) = false := by
            simp [ha]
          have hra : (shortestPath a l).length < a.length :=
            Nat.lt_of_le_of_ne (hmin a (List.mem_cons_self _ _)) (fun hf => ha hf.symm)
          have hpb : (b.length == (shortestPath a l).length) = false := by
            simp only [beq_eq_false_iff_ne, ne_eq]
            omega
          rw [List.filter_cons, if_neg (by simp [hpa]),
            List.filter_cons, if_neg (by simp [hpb])]
          rw [List.filter_cons, if_neg (by simp [hpa])] at hfirst
          exact hfirst
    · have hstep : shortestPath a (b :: l) = shortestPath b l := by
        simp [shortestPath, List.foldl_cons, if_neg hab]
      obtain ⟨hmem, hmin, hfirst⟩ := ih b
      rw [hstep]
      have hba : b.length < a.length := by omega
      have hra : (shortestPath b l).length < a.length :=
        Nat.lt_of_le_of_lt (hmin b (List.mem_cons_self _ _)) hba
      have hpa : (a.length == (shortestPath b l).length) = false := by
        simp only [beq_eq_false_iff_ne, ne_eq]
        omega
      refine ⟨?_, ?_, ?_⟩
      · rcases List.mem_cons.mp hmem with h | h
        · rw [h]; exact List.mem_cons_of_mem _ (List.mem_cons_self _ _)
        · exact List.mem_cons_of_mem _ (List.mem_cons_of_mem _ h)
      · intro q hq
        rcases List.mem_cons.mp hq with h | h
        · rw [h]; exact Nat.le_of_lt hra
        · rcases List.mem_cons.mp h with h' | h'
          · rw [h']; exact hmin b (List.mem_cons_self _ _)
          · exact hmin q (List.mem_cons_of_mem _ h')
      · rw [List.filter_cons, if_neg (by simp [hpa])]
        exact hfirst

theorem scoreLeRefl (x : Score) : Score.le x x = true := by
  simp [Score.le]

theorem scoreLtLe {x y : Score} (h : Score.lt x y = true) : Score.le x y = true := by
  simp only [Score.lt, decide_eq_true_eq] at h
  simp only [Score.le, decide_eq_true_eq]
  omega

theorem scoreNotLtLe {x y : Score} (h : Score.lt x y = false) : Score.le y x = true := by
  simp only [Score.lt, decide_eq_false_iff_not] at h
  simp only [Score.le, decide_eq_true_eq]
  omega

theorem scoreLeTrans {x y z : Score} (hy : 0 < y.den)
    (h1 : Score.le x y = true) (h2 : Score.le y z = true) : Score.le x z = true := by
  simp only [Score.le, decide_eq_true_eq] at h1 h2 ⊢
  have hA := Nat.mul_le_mul_right z.den h1
  have hB := Nat.mul_le_mul_right x.den h2
  have h3 : x.num * z.den * y.den ≤ z.num * x.den * y.den := by nlinarith [hA, hB]
  exact Nat.le_of_mul_le_mul_right h3 hy

theorem pickBest_spec (a : Cand) (l : List Cand)
    (hden : ∀ c ∈ a :: l, 0 < c.score.den) :
    pickBest a l ∈ a :: l ∧ ∀ c ∈ a :: l, Score.le c.score (pickBest a l).score = true := by
  induction l generalizing a with
  | nil =>
    refine ⟨by simp [pickBest], ?_⟩
    intro c hc
    have hca : c = a := by simpa using hc
    rw [hca]
    exact scoreLeRefl _
  | cons b l ih =>
    by_cases hb : Score.lt a.score b.score = true
    · have hstep : pickBest a (b :: l) = pickBest b l := by
        simp [pickBest, List.foldl_cons, hb]
      have hden' : ∀ c ∈ b :: l, 0 < c.score.den := by
        intro c hc
        exact hden c (List.mem_cons_of_mem _ hc)
      obtain ⟨hmem, hmax⟩ := ih b hden'
      rw [hstep]
      refine ⟨?_, ?_⟩
      · rcases List.mem_cons.mp hmem with h | h
        · rw [h]; exact List.mem_cons_of_mem _ (List.mem_cons_self _ _)
        · exact List.mem_cons_of_mem _ (List.mem_cons_of_mem _ h)
      · intro c hc
        rcases List.mem_cons.mp hc with h | h
        · rw [h]
          exact scoreLeTrans (hden b (List.mem_cons_of_mem _ (List.mem_cons_self _ _)))
            (scoreLtLe hb) (hmax b (List.mem_cons_self _ _))
        · exact hmax c h
    · have hbf : Score.lt a.score b.score = false := by
        cases hx : Score.lt a.score b.score
        · rfl
        · exact absurd hx hb
      have hstep : pickBest a (b :: l) = pickBest a l := by
        simp [pickBest, List.foldl_cons, hbf]
      have hden' : ∀ c ∈ a :: l, 0 < c.score.den := by
        intro c hc
        rcases List.mem_cons.mp hc with h | h
        · rw [h]; exact hden a (List.mem_cons_self _ _)
        · exact hden c (List.mem_cons_of_mem _ (List.mem_cons_of_mem _ h))
      obtain ⟨hmem, hmax⟩ := ih a hden'
      rw [hstep]
      refine ⟨?_, ?_⟩
      · rcases List.mem_cons.mp hmem with h | h
        · rw [h]; exact List.mem_cons_self _ _
        · exact List.mem_cons_of_mem _ (List.mem_cons_of_mem _ h)
      · intro c hc
        rcases List.mem_cons.mp hc with h | h
        · rw [h]; exact hmax a (List.mem_cons_self _ _)
        · rcases List.mem_cons.mp h with h' | h'
          · rw [h']
            exact scoreLeTrans (hden a (List.mem_cons_self _ _))
              (scoreNotLtLe hbf) (hmax a (List.mem_cons_self _ _))
          · exact hmax c (List.mem_cons_of_mem _ h')

theorem mkCand_den_pos (skillId folderPath : String) (htok : tokensOf skillId ≠ []) :
    0 < (mkCand skillId folderPath).score.den := by
  have hpos : 0 < (tokensOf skillId).length := List.length_pos.mpr htok
  have hmax : (tokensOf skillId).length ≤
      max (tokensOf (lastSegment folderPath)).length (tokensOf skillId).length :=
    Nat.le_max_right _ _
  simp only [mkCand]
  split
  · split
    · exact Nat.one_pos
    · simp only []
      omega
  · simp only []
    omega

/-! ## Claim theorems -/

/-- C1: the claim says `fetchSkillDetails` never throws and that every
exception after resolution — including the rate-limit exception raised by the
directory content fetcher on HTTP 403, both on the initial listing of the
resolved folder and during recursive collection — is converted into the
result's error field.  In the code the initial `fetchFolderContents` call sits
outside the `try` block, so a 403 on the initial listing propagates
(`Except.error`, i.e. the promise rejects), while the same 403 raised during
recursive collection is indeed caught into the error field. -/
theorem fetchSkillDetails_rate_limit_escape :
    fetchSkillDetails envRateLimited 5 "o/r/s" =
      Except.error "GitHub rate limit exceeded" ∧
    fetchSkillDetails envDeepRateLimited 5 "o/r/s" =
      Except.ok ⟨"o/r/s", [], some "GitHub rate limit exceeded"⟩ := by
  exact ⟨by decide, by decide⟩

/-- C2: when the tree holds at least one `tree`-type entry whose path equals
the skill identifier or ends with `/` + the identifier, resolution returns
(with a null error, evaluating no later tier) the candidate with the shortest
path, and on equal lengths the earliest such entry: the returned path is a
candidate, has minimal length among candidates, and is the first candidate of
its length. -/
theorem exact_match_tier_shortest (tree : List TreeEntry) (skillId : String)
    (e : String) (es : List String)
    (h : exactCandidates tree skillId = e :: es) :
    findSkillFolderPure tree skillId = ⟨some (shortestPath e es), none⟩ ∧
    shortestPath e es ∈ exactCandidates tree skillId ∧
    (∀ q ∈ exactCandidates tree skillId, (shortestPath e es).length ≤ q.length) ∧
    ((exactCandidates tree skillId).filter
        (fun q => q.length == (shortestPath e es).length)).head? =
      some (shortestPath e es) := by
  have hs := shortestPath_spec e es
  rw [h]
  exact ⟨by simp [findSkillFolderPure, h], hs.1, hs.2.1, hs.2.2⟩

/-- Witness for C2 on a tree where `code-review` occurs both nested and at
top level: the shortest candidate (`code-review`) is selected. -/
theorem exact_match_tier_shortest_witness :
    exactCandidates treeExact "code-review" = ["a/b/code-review", "code-review"] ∧
    shortestPath "a/b/code-review" ["code-review"] = "code-review" ∧
    (findSkillFolderPure treeExact "code-review" =
        ⟨some (shortestPath "a/b/code-review" ["code-review"]), none⟩ ∧
      shortestPath "a/b/code-review" ["code-review"] ∈ exactCandidates treeExact "code-review" ∧
      (∀ q ∈ exactCandidates treeExact "code-review",
        (shortestPath "a/b/code-review" ["code-review"]).length ≤ q.length) ∧
      ((exactCandidates treeExact "code-review").filter
          (fun q => q.length == (shortestPath "a/b/code-review" ["code-review"]).length)).head? =
        some (shortestPath "a/b/code-review" ["code-review"])) :=
  ⟨by decide, by decide,
    exact_match_tier_shortest treeExact "code-review" "a/b/code-review" ["code-review"] (by decide)⟩

/-- C3: with no exact directory match and at least two manifest blobs, the
fuzzy tier scores every candidate parent folder (`mkCand` implements
`|folderTokens ∩ skillIdTokens| / max(|folderTokens|, |skillIdTokens|)` plus
the `+0.5`-capped-at-`1.0` substring bonus), and resolution returns the path
of a maximal-scoring candidate exactly when its score reaches `0.30`,
otherwise a null path with the error naming that best candidate and its
score rounded to a whole percentage.  The hypothesis that the identifier has
at least one token excludes the degenerate `0/0` (JS `NaN`) scores. -/
theorem fuzzy_tier_threshold (tree : List TreeEntry) (skillId : String)
    (e1 e2 : TreeEntry) (rest : List TreeEntry)
    (hex : exactCandidates tree skillId = [])
    (hm : manifestEntries tree = e1 :: e2 :: rest)
    (htok : tokensOf skillId ≠ []) :
    ∃ best : Cand,
      best ∈ (e1 :: e2 :: rest).map (fun e => mkCand skillId (parentDir e.path)) ∧
      (∀ c ∈ (e1 :: e2 :: rest).map (fun e => mkCand skillId (parentDir e.path)),
        Score.le c.score best.score = true) ∧
      (best.score.atLeast30 = true →
        findSkillFolderPure tree skillId = ⟨some best.folderPath, none⟩) ∧
      (best.score.atLeast30 = false →
        findSkillFolderPure tree skillId =
          ⟨none, some ("No matching skill folder found (best match: " ++ best.folderName ++
            " at " ++ toString best.score.pct ++ "%)")⟩) := by
  have hred : findSkillFolderPure tree skillId =
      fuzzyPick skillId (parentDir e1.path) ((e2 :: rest).map (fun e => parentDir e.path)) := by
    unfold findSkillFolderPure
    rw [hex, hm]
  have hl : ((e2 :: rest).map (fun e => parentDir e.path)).map (mkCand skillId) =
      (e2 :: rest).map (fun e => mkCand skillId (parentDir e.path)) := by
    rw [List.map_map]
    rfl
  have hden : ∀ c ∈ mkCand skillId (parentDir e1.path) ::
      (e2 :: rest).map (fun e => mkCand skillId (parentDir e.path)), 0 < c.score.den := by
    intro c hc
    rcases List.mem_cons.mp hc with h | h
    · rw [h]; exact mkCand_den_pos _ _ htok
    · obtain ⟨e, _, hce⟩ := List.mem_map.mp h
      rw [← hce]; exact mkCand_den_pos _ _ htok
  obtain ⟨hmem, hmax⟩ := pickBest_spec _ _ hden
  refine ⟨_, hmem, hmax, ?_, ?_⟩
  · intro h30
    rw [hred, fuzzyPick.eq_def, hl, fuzzyOutcome.eq_def]
    split
    next hcond => rfl
    next hcond => exact absurd h30 hcond
  · intro h30
    rw [hred, fuzzyPick.eq_def, hl, fuzzyOutcome.eq_def]
    split
    next hcond =>
      have hx : (pickBest (mkCand skillId (parentDir e1.path))
          ((e2 :: rest).map (fun e => mkCand skillId (parentDir e.path)))).score.atLeast30 = true :=
        hcond
      rw [h30] at hx
      exact Bool.noConfusion hx
    next hcond => rfl

/-- Witness for C3 on a two-manifest tree: `alpha-beta` scores `1.0` against
itself and is returned. -/
theorem fuzzy_tier_threshold_witness :
    exactCandidates treeTwoManifests "alpha-beta" = [] ∧
    manifestEntries treeTwoManifests =
      [{ path := "alpha-beta/SKILL.md", type := "blob" },
       { path := "gamma-delta/SKILL.md", type := "blob" }] ∧
    tokensOf "alpha-beta" ≠ [] ∧
    (∃ best : Cand,
      best ∈ [({ path := "alpha-beta/SKILL.md", type := "blob" } : TreeEntry),
              { path := "gamma-delta/SKILL.md", type := "blob" }].map
          (fun e => mkCand "alpha-beta" (parentDir e.path)) ∧
      (∀ c ∈ [({ path := "alpha-beta/SKILL.md", type := "blob" } : TreeEntry),
              { path := "gamma-delta/SKILL.md", type := "blob" }].map
          (fun e => mkCand "alpha-beta" (parentDir e.path)),
        Score.le c.score best.score = true) ∧
      (best.score.atLeast30 = true →
        findSkillFolderPure treeTwoManifests "alpha-beta" = ⟨some best.folderPath, none⟩) ∧
      (best.score.atLeast30 = false →
        findSkillFolderPure treeTwoManifests "alpha-beta" =
          ⟨none, some ("No matching skill folder found (best match: " ++ best.folderName ++
            " at " ++ toString best.score.pct ++ "%)")⟩)) :=
  ⟨by decide, by decide, by decide,
    fuzzy_tier_threshold treeTwoManifests "alpha-beta"
      { path := "alpha-beta/SKILL.md", type := "blob" }
      { path := "gamma-delta/SKILL.md", type := "blob" } []
      (by decide) (by decide) (by decide)⟩

/-- Counterexample to C4 as stated: the two manifest blobs `x/SKILL.md` and
`x/skill.md` share the single distinct parent directory `x`, yet resolution
of `zz` does *not* return `x` — the source's shortcut tests
`skillFolders.length === 1` (number of manifest blobs, not number of distinct
parents), so the fuzzy tier runs and rejects `x` at score `0%`. -/
theorem shared_parent_manifests_counterexample :
    manifestEntries treeSharedParent ≠ [] ∧
    (∀ e ∈ manifestEntries treeSharedParent, parentDir e.path = "x") ∧
    exactCandidates treeSharedParent "zz" = [] ∧
    findSkillFolderPure treeSharedParent "zz" =
      ⟨none, some "No matching skill folder found (best match: x at 0%)"⟩ := by
  exact ⟨by decide, by decide, by decide, by decide⟩

/-- C4 (amended): when the manifest scan finds exactly one manifest *blob*
(rather than one distinct parent directory), resolution returns its parent
directory — empty string for a root manifest — with a null error, regardless
of how dissimilar that directory is to the requested identifier, and without
evaluating the fuzzy tier. -/
theorem single_manifest_shortcut (tree : List TreeEntry) (skillId : String) (e : TreeEntry)
    (hex : exactCandidates tree skillId = [])
    (hm : manifestEntries tree = [e]) :
    findSkillFolderPure tree skillId = ⟨some (parentDir e.path), none⟩ := by
  simp [findSkillFolderPure, hex, hm]

/-- Witness for the amended C4: a lone manifest under `foo` resolves skill
`zzz` to `foo` despite zero similarity. -/
theorem single_manifest_shortcut_witness :
    exactCandidates treeOneManifest "zzz" = [] ∧
    manifestEntries treeOneManifest = [{ path := "foo/SKILL.md", type := "blob" }] ∧
    findSkillFolderPure treeOneManifest "zzz" =
      ⟨some (parentDir ({ path := "foo/SKILL.md", type := "blob" } : TreeEntry).path), none⟩ :=
  ⟨by decide, by decide,
    single_manifest_shortcut treeOneManifest "zzz" { path := "foo/SKILL.md", type := "blob" }
      (by decide) (by decide)⟩

/-- Counterexample to C5 as stated: against skill identifier `weather`, the
substring bonus does *not* make folder `weather` strictly out-score
`weather-widgets` — both are capped at the maximal score `1.0` — and with
`weather-widgets` listed first the resolver returns `weather-widgets`, so the
outcome depends on candidate order. -/
theorem substring_bonus_tie_counterexample :
    (mkCand "weather" "weather-widgets").score = (mkCand "weather" "weather").score ∧
    findSkillFolderPure
      [{ path := "weather-widgets/SKILL.md", type := "blob" },
       { path := "weather/SKILL.md", type := "blob" }] "weather" =
      ⟨some "weather-widgets", none⟩ := by
  exact ⟨by decide, by decide⟩

/-- C5 (amended): the substring bonus lifts both `weather` and
`weather-widgets` to the capped score `1.0` (num/den = 1/1), a tie; the
stable sort keeps the original order, so the first-listed candidate wins, and
`weather` is returned exactly when it precedes `weather-widgets`. -/
theorem substring_bonus_tie_order :
    (mkCand "weather" "weather-widgets").score = ⟨1, 1⟩ ∧
    (mkCand "weather" "weather").score = ⟨1, 1⟩ ∧
    findSkillFolderPure
      [{ path := "weather/SKILL.md", type := "blob" },
       { path := "weather-widgets/SKILL.md", type := "blob" }] "weather" =
      ⟨some "weather", none⟩ := by
  exact ⟨by decide, by decide, by decide⟩

/-- C6: a composite identifier with fewer than three `/`-separated segments
yields a result that echoes the identifier, has an empty file list and the
malformed-input error — and the outcome is the same for *every* environment
and fuel, i.e. no network request is consulted. -/
theorem malformed_id_no_fetch (env : Env) (fuel : Nat) (skillId : String)
    (h : (strSplit '/' skillId).length < 3) :
    fetchSkillDetails env fuel skillId =
      Except.ok ⟨skillId, [],
        some ("Invalid skill ID format. Expected \"owner/repo/skillId\", got \"" ++
          skillId ++ "\"")⟩ := by
  simp only [fetchSkillDetails]
  rw [if_pos h]

/-- Witness for C6 at identifier `a/b`. -/
theorem malformed_id_no_fetch_witness :
    (strSplit '/' "a/b").length < 3 ∧
    fetchSkillDetails envEmpty 1 "a/b" =
      Except.ok ⟨"a/b", [],
        some "Invalid skill ID format. Expected \"owner/repo/skillId\", got \"a/b\""⟩ :=
  ⟨by decide, malformed_id_no_fetch envEmpty 1 "a/b" (by decide)⟩

/-- C7: whenever a collection pass over a listing succeeds, its output starts
with exactly one record per `file` entry whose download reference is present
and whose download succeeds, in listing order (entries without a reference or
with a failed download are omitted, with no error and no placeholder),
followed by the subdirectory results — in particular the remainder is empty
when the listing has no `dir` entries. -/
theorem collectFiles_best_effort (env : Env) (source : String) (fuel : Nat)
    (items : List Item) (res : List FileRecord)
    (h : collectFiles env source (fuel + 1) items = Except.ok res) :
    ∃ rest, res = (items.filter (fun f => f.type == "file")).filterMap (fileAttempt env) ++ rest ∧
      (items.filter (fun f => f.type == "dir") = [] → rest = []) := by
  rw [collectFiles_succ] at h
  cases hw : walkDirs env source fuel (items.filter (fun f => f.type == "dir")) with
  | error e =>
    rw [hw] at h
    exact absurd h (by simp [Except.map])
  | ok rest =>
    rw [hw] at h
    simp only [Except.map] at h
    have hres : codeFileRecords env items ++ rest = res := by
      simpa using h
    refine ⟨rest, ?_, ?_⟩
    · rw [← hres, codeFileRecords_eq]
    · intro hnil
      rw [hnil] at hw
      simpa [walkDirs] using hw

/-- Witness for C7 on the spec's example listing: one entry with no
`download_url` and two downloadable entries give exactly the two records. -/
theorem collectFiles_best_effort_witness :
    collectFiles envMixed "o/r" 1 itemsMixed =
      Except.ok [⟨"b.md", "b.md", "one"⟩, ⟨"c.md", "c.md", "two"⟩] ∧
    (∃ rest, [(⟨"b.md", "b.md", "one"⟩ : FileRecord), ⟨"c.md", "c.md", "two"⟩] =
        (itemsMixed.filter (fun f => f.type == "file")).filterMap (fileAttempt envMixed) ++ rest ∧
      (itemsMixed.filter (fun f => f.type == "dir") = [] → rest = [])) :=
  ⟨by decide,
    collectFiles_best_effort envMixed "o/r" 0 itemsMixed
      [⟨"b.md", "b.md", "one"⟩, ⟨"c.md", "c.md", "two"⟩] (by decide)⟩

/-- C8: the claim promises one `SkillDetailResult` per identifier in input
order for every 1–10 batch.  Because of the uncaught 403 exhibited for C1,
a batch whose single identifier hits a rate-limited folder listing collapses
into one `isError` text with no per-identifier results.  For batches in which
no orchestration rejects, the handler does return one result per identifier
in order, and a malformed second identifier leaves the first and third
results exactly as they are alone. -/
theorem batch_rate_limit_collapse :
    getSkillDetailsTool envRateLimited 5 ["o/r/s"] =
      ToolOutcome.err "Error: GitHub rate limit exceeded" ∧
    getSkillDetailsTool envTwoSkills 5 ["o/r/s", "bad", "o/r/s2"] =
      ToolOutcome.ok
        [⟨"o/r/s", [⟨"s/SKILL.md", "SKILL.md", "content one"⟩], none⟩,
         ⟨"bad", [], some "Invalid skill ID format. Expected \"owner/repo/skillId\", got \"bad\""⟩,
         ⟨"o/r/s2", [⟨"s2/SKILL.md", "SKILL.md", "content two"⟩], none⟩] ∧
    fetchSkillDetails envTwoSkills 5 "o/r/s" =
      Except.ok ⟨"o/r/s", [⟨"s/SKILL.md", "SKILL.md", "content one"⟩], none⟩ ∧
    fetchSkillDetails envTwoSkills 5 "o/r/s2" =
      Except.ok ⟨"o/r/s2", [⟨"s2/SKILL.md", "SKILL.md", "content two"⟩], none⟩ := by
  exact ⟨by decide, by decide, by decide, by decide⟩

/-- C9: the rotator is total; with a non-empty pool the `n`-th call (from 0)
carries `Bearer` + the token at index `n mod pool-size` and advances the
cursor to `n + 1`, so consecutive calls distribute round-robin; with an empty
pool every call returns only the `Accept` header and leaves the state
unchanged. -/
theorem rotator_round_robin (tokens : List String) (n : Nat) :
    (tokens ≠ [] →
      callsFrom ⟨tokens, 0⟩ n = ⟨tokens, n⟩ ∧
      (getGitHubHeaders ⟨tokens, n⟩).1 =
        [("Accept", "application/vnd.github.v3+json"),
         ("Authorization", "Bearer " ++ tokens.getD (n % tokens.length) "")] ∧
      (getGitHubHeaders ⟨tokens, n⟩).2 = ⟨tokens, n + 1⟩) ∧
    (tokens = [] →
      getGitHubHeaders ⟨tokens, n⟩ =
        ([("Accept", "application/vnd.github.v3+json")], ⟨tokens, n⟩) ∧
      ∀ v, ("Authorization", v) ∉ (getGitHubHeaders ⟨tokens, n⟩).1) := by
  constructor
  · intro h
    have hl : 0 < tokens.length := List.length_pos.mpr h
    have hstate : ∀ m, callsFrom ⟨tokens, 0⟩ m = ⟨tokens, m⟩ := by
      intro m
      induction m with
      | zero => rfl
      | succ m ih => simp [callsFrom, ih, getGitHubHeaders, hl]
    refine ⟨hstate n, ?_, ?_⟩ <;> simp [getGitHubHeaders, hl]
  · intro h
    subst h
    refine ⟨rfl, ?_⟩
    intro v hv
    have hv2 : ("Authorization", v) ∈ [("Accept", "application/vnd.github.v3+json")] := hv
    rw [List.mem_singleton] at hv2
    have hba : "Authorization" = "Accept" := congrArg Prod.fst hv2
    exact absurd hba (by decide)

/-- Witness for C9: pool `[t1, t2, t3]`, fifth call (index 4) uses `t2`. -/
theorem rotator_round_robin_witness :
    (["t1", "t2", "t3"] : List String) ≠ [] ∧
    (callsFrom ⟨["t1", "t2", "t3"], 0⟩ 4 = ⟨["t1", "t2", "t3"], 4⟩ ∧
      (getGitHubHeaders ⟨["t1", "t2", "t3"], 4⟩).1 =
        [("Accept", "application/vnd.github.v3+json"),
         ("Authorization", "Bearer " ++ ["t1", "t2", "t3"].getD (4 % (["t1", "t2", "t3"] : List String).length) "")] ∧
      (getGitHubHeaders ⟨["t1", "t2", "t3"], 4⟩).2 = ⟨["t1", "t2", "t3"], 4 + 1⟩) :=
  ⟨by decide, (rotator_round_robin ["t1", "t2", "t3"] 4).1 (by decide)⟩

/-- C10: a blob counts as a skill manifest exactly when its path ends with
the eight characters `skill.md` compared case-insensitively (the
`/SKILL\.md$/i` test); hence `my-skill.md` is a manifest and its parent
directory becomes a resolution candidate even when no file named exactly
`SKILL.md` exists. -/
theorem manifest_suffix_case_insensitive (p : String) :
    (isSkillMd p = true ↔
      ∃ pre suf : List Char, p.data = pre ++ suf ∧ suf.map chLower = "skill.md".data) ∧
    isSkillMd "my-skill.md" = true ∧
    isSkillMd "A/Skill.MD" = true ∧
    isSkillMd "A/SKILL.txt" = false ∧
    findSkillFolderPure [{ path := "docs/my-skill.md", type := "blob" }] "totally-unrelated" =
      ⟨some "docs", none⟩ :=
  ⟨chEnds_map_iff chLower "skill.md".data p.data, by decide, by decide, by decide, by decide⟩
